import Mathlib

/-!
Shallow embedding of `src/nmtpytorch/layers/condmm_decoder.py`
(class `ConditionalMMDecoder`).

The decoder's external collaborators (Attention, Fusion, FF, the GRU cells,
the embedding lookup, dropout, `torch.gather`) are consumed as black boxes by
the orchestration code, so the step orchestrator `f_next` and the training
loss accumulator `forward` are embedded over a structure `DecModel` of
abstract operators, one field per sub-module of the Python class.  Python
dictionary indexing (`ctx_dict['txt']`, `ctx_dict['image']`) can raise
`KeyError`, so those two functions return `Except DecErr`.

The initializer `f_init` (which manipulates concrete tensors), the
constructor `__init__` (whose dictionary reads, conditionals and weight tying
the claims are about), and the `-F.log_softmax` output normalization are
embedded separately at a concrete level further below.
-/

namespace CondMM

/-- Errors surfaced by Python dictionary indexing (`KeyError`). -/
inductive DecErr : Type where
  | keyError : String → DecErr
deriving DecidableEq

/-- A context dictionary: modality name to context stream (the stream value
bundles the annotation tensor together with its mask, mirroring the
`(ctx, mask)` tuples stored in `ctx_dict`). -/
abbrev CtxDict (Ctx : Type) : Type := List (String × Ctx)

/-- The sub-modules of `ConditionalMMDecoder`, one field per attribute built
in `__init__`, treated as black-box operators (spec section 6 treats
Attention, Fusion and FF as external collaborators).  `gather` models
`torch.gather(log_p, dim=1, index=y[t+1].unsqueeze(1)).sum()`: selecting the
entry of the negative-log-probability tensor at a target token and summing
over the batch, yielding the scalar loss term. -/
structure DecModel (Tok Emb Hid Ctx Zt Alpha Score Logp : Type) where
  emb : Tok → Emb
  f_init : Ctx → Hid
  dec0 : Emb → Hid → Hid
  dec1 : Zt → Hid → Hid
  txt_att : Hid → Ctx → Alpha × Zt
  img_att : Hid → Ctx → Alpha × Zt
  fusion : Zt → Zt → Zt
  hid2out : Hid → Emb
  dropout_out : ℚ
  do_out : Emb → Emb
  out2prob : Emb → Score
  neg_log_softmax : Score → Logp
  gather : Logp → Tok → ℚ

section Step

variable {Tok Emb Hid Ctx Zt Alpha Score Logp : Type}

/-- `ConditionalMMDecoder.f_next` (lines 89 to 115 of the source): stage-1
cell, textual attention, visual attention (reading key `"image"`), fusion,
stage-2 cell, bottleneck, optional dropout, vocabulary projection and
negated log-softmax; returns the distribution and the new hidden state. -/
def f_next (M : DecModel Tok Emb Hid Ctx Zt Alpha Score Logp)
    (ctx_dict : CtxDict Ctx) (y : Emb) (h : Hid) :
    Except DecErr (Logp × Hid) := do
  let h1 := M.dec0 y h
  let txt_pair ← match ctx_dict.lookup "txt" with
    | some c => Except.ok c
    | none => Except.error (DecErr.keyError "txt")
  let txt_res := M.txt_att h1 txt_pair
  let img_pair ← match ctx_dict.lookup "image" with
    | some c => Except.ok c
    | none => Except.error (DecErr.keyError "image")
  let img_res := M.img_att h1 img_pair
  let final_z_t := M.fusion txt_res.2 img_res.2
  let h2 := M.dec1 final_z_t h1
  let logit := M.hid2out h2
  let logit_do := if M.dropout_out > 0 then M.do_out logit else logit
  let log_p := M.neg_log_softmax (M.out2prob logit_do)
  return (log_p, h2)

/-- The value computed by `f_next` once both dictionary lookups have
succeeded on streams `txt_pair` and `img_pair` (characterization helper). -/
def f_next_pure (M : DecModel Tok Emb Hid Ctx Zt Alpha Score Logp)
    (txt_pair img_pair : Ctx) (y : Emb) (h : Hid) : Logp × Hid :=
  let h1 := M.dec0 y h
  let final_z_t := M.fusion (M.txt_att h1 txt_pair).2 (M.img_att h1 img_pair).2
  let h2 := M.dec1 final_z_t h1
  let logit := M.hid2out h2
  let logit_do := if M.dropout_out > 0 then M.do_out logit else logit
  (M.neg_log_softmax (M.out2prob logit_do), h2)

/-- The decoding loop of `ConditionalMMDecoder.forward`:
`for t in range(y_emb.shape[0] - 1): log_p, h = f_next(...); loss += gather`.
First argument: number of remaining iterations; second: the current Python
loop index `t`; then the threaded hidden state and accumulated loss. -/
def decodeLoop (M : DecModel Tok Emb Hid Ctx Zt Alpha Score Logp)
    (ctx_dict : CtxDict Ctx) (y_emb : Nat → Emb) (y : Nat → Tok) :
    Nat → Nat → Hid → ℚ → Except DecErr ℚ
  | 0, _, _, loss => Except.ok loss
  | Nat.succ n, t, h, loss => do
    let r ← f_next M ctx_dict (y_emb t) h
    decodeLoop M ctx_dict y_emb y n (t + 1) r.2 (loss + M.gather r.1 (y (t + 1)))

/-- `ConditionalMMDecoder.forward` (lines 117 to 141): embeds all target
positions up front, initializes the hidden state from `ctx_dict['txt']`,
then runs the loop `range(L - 1)` accumulating `loss` from `0.0`.  The
`T*B` target tensor is modelled as a function `y : Nat → Tok` from time step
to (batched) token row, together with its time length `L`; Python's
`range(-1)` for `L = 0` and Lean's `0 - 1 = 0` agree on an empty loop. -/
def forward (M : DecModel Tok Emb Hid Ctx Zt Alpha Score Logp)
    (ctx_dict : CtxDict Ctx) (y : Nat → Tok) (L : Nat) :
    Except DecErr ℚ := do
  let y_emb := fun t => M.emb (y t)
  let txt_pair ← match ctx_dict.lookup "txt" with
    | some c => Except.ok c
    | none => Except.error (DecErr.keyError "txt")
  let h := M.f_init txt_pair
  decodeLoop M ctx_dict y_emb y (L - 1) 0 h 0

/-- The sequence of hidden states threaded through the loop: `hiddenSeq t`
is the hidden state entering iteration `t` (index 0 is the initializer's
output). -/
def hiddenSeq (M : DecModel Tok Emb Hid Ctx Zt Alpha Score Logp)
    (txt_pair img_pair : Ctx) (y_emb : Nat → Emb) (h0 : Hid) : Nat → Hid
  | 0 => h0
  | Nat.succ t =>
      (f_next_pure M txt_pair img_pair (y_emb t)
        (hiddenSeq M txt_pair img_pair y_emb h0 t)).2

/-- The loss term contributed by loop iteration `t`: the gathered entry, at
the next target token `y (t+1)`, of the distribution produced by `f_next`
run on the embedding of the current token `y_emb t`. -/
def stepTerm (M : DecModel Tok Emb Hid Ctx Zt Alpha Score Logp)
    (txt_pair img_pair : Ctx) (y_emb : Nat → Emb) (y : Nat → Tok)
    (h0 : Hid) (t : Nat) : ℚ :=
  M.gather
    (f_next_pure M txt_pair img_pair (y_emb t)
      (hiddenSeq M txt_pair img_pair y_emb h0 t)).1
    (y (t + 1))

end Step

/-!
Constructor model.  `ConditionalMMDecoder.__init__` (lines 13 to 77) stores
the scalar configuration, reads `ctx_size_dict['txt']` (textual attention)
and `ctx_size_dict['img']` (visual attention) — a `KeyError` if absent —
builds `ff_dec_init` with `activ='tanh'` only when `dec_init == 'mean_ctx'`
(no other validation of `dec_init`), and, when `tied_emb` is true, executes
`self.out2prob.weight = self.emb.weight`, aliasing the projection's weight
to the embedding table.  Aliasing is modelled with reference identifiers
into a heap of weight matrices: the embedding table is reference 0, the
projection weight is reference 1 unless tied, in which case it is the same
reference 0.  Sub-modules with no bearing on any claim (`mod_order`,
`fusion`, the attention hyper-parameters, the GRU cells, `do_out`,
`hid2out`) carry no configuration state beyond what is recorded here.
-/

/-- Configuration state recorded by `__init__`. -/
structure DecCfg : Type where
  input_size : ℕ
  hidden_size : ℕ
  n_vocab : ℕ
  tied_emb : Bool
  dec_init : String
  dropout_out : ℚ
  txt_att_ctx_size : ℕ
  img_att_ctx_size : ℕ
  ff_dec_init_activ : Option String
  embRef : ℕ
  outRef : ℕ
deriving DecidableEq

/-- `ConditionalMMDecoder.__init__`: the dictionary reads and conditionals
of the constructor, in source order.  There is no validation of `dec_init`
beyond the `if self.dec_init == 'mean_ctx'` guard that builds
`ff_dec_init`; an unrecognized policy string is stored untouched. -/
def mkDecoder (input_size hidden_size : ℕ) (ctx_size_dict : List (String × ℕ))
    (n_vocab : ℕ) (tied_emb : Bool) (dec_init : String) (dropout_out : ℚ) :
    Except DecErr DecCfg := do
  let txt_size ← match ctx_size_dict.lookup "txt" with
    | some s => Except.ok s
    | none => Except.error (DecErr.keyError "txt")
  let img_size ← match ctx_size_dict.lookup "img" with
    | some s => Except.ok s
    | none => Except.error (DecErr.keyError "img")
  Except.ok
    { input_size := input_size
      hidden_size := hidden_size
      n_vocab := n_vocab
      tied_emb := tied_emb
      dec_init := dec_init
      dropout_out := dropout_out
      txt_att_ctx_size := txt_size
      img_att_ctx_size := img_size
      ff_dec_init_activ := if dec_init = "mean_ctx" then some "tanh" else none
      embRef := 0
      outRef := if tied_emb then 0 else 1 }

/-- The configuration value `mkDecoder` produces once both dictionary reads
have returned `txt_size = st` and `img_size = si` (helper for stating
construction results). -/
def builtCfg (input_size hidden_size n_vocab : ℕ) (tied_emb : Bool)
    (dec_init : String) (dropout_out : ℚ) (st si : ℕ) : DecCfg where
  input_size := input_size
  hidden_size := hidden_size
  n_vocab := n_vocab
  tied_emb := tied_emb
  dec_init := dec_init
  dropout_out := dropout_out
  txt_att_ctx_size := st
  img_att_ctx_size := si
  ff_dec_init_activ := if dec_init = "mean_ctx" then some "tanh" else none
  embRef := 0
  outRef := if tied_emb then 0 else 1

/-!
Parameter heap for the weight-tying claim: weight matrices live in a heap
indexed by reference identifier; a training update overwrites the matrix at
one reference.  `nn.Embedding(n_vocab, input_size, padding_idx=0)`
initializes the row at index 0 to the zero vector (and PyTorch never sends
gradient to that row); `mkEmbWeight` models the constructed table.
-/

/-- A heap of weight matrices: reference id, then row, then column. -/
def Heap : Type := ℕ → ℕ → ℕ → ℚ

/-- Overwrite the matrix stored at reference `r` (one in-place parameter
mutation, e.g. an optimizer step on that parameter). -/
def heapUpdate (h : Heap) (r : ℕ) (W : ℕ → ℕ → ℚ) : Heap :=
  fun s => if s = r then W else h s

/-- Apply a sequence of parameter mutations to the heap. -/
def applyUpdates (h : Heap) (ups : List (ℕ × (ℕ → ℕ → ℚ))) : Heap :=
  ups.foldl (fun acc u => heapUpdate acc u.1 u.2) h

/-- The embedding table built by `nn.Embedding(n_vocab, input_size,
padding_idx=0)`: initial weights `W` with the row at the padding index 0
fixed to the zero vector. -/
def mkEmbWeight (W : ℕ → ℕ → ℚ) : ℕ → ℕ → ℚ :=
  fun tok i => if tok = 0 then 0 else W tok i

/-!
Concrete initializer.  `ConditionalMMDecoder.f_init` (lines 79 to 87)
receives the textual annotation tensor (`S*B*C`) and its mask (`S*B`).
All operations are per batch element (the division broadcasts the `B`-sized
mask-count vector over the `C` dimension), so one batch element is
modelled: the context is a list of `S` position vectors of width `C` over
`ℚ`, the mask a list of `S` rationals.  The external `FF` operator
(`ff_dec_init`, built with `activ='tanh'`) is a black-box function
parameter.  Under `dec_init == 'zero'` the source returns a fresh zero
tensor of width `hidden_size`; under `'mean_ctx'` it returns
`ff_dec_init(txt_ctx.sum(0) / txt_ctx_mask.sum(0).unsqueeze(1))`; any other
policy string falls through both branches and Python returns `None`.
-/

/-- Elementwise sum of the position vectors: `txt_ctx.sum(0)` for one batch
element, with `C` the context width. -/
def ctxSum (C : ℕ) (txt_ctx : List (List ℚ)) : List ℚ :=
  txt_ctx.foldr (fun v acc => List.zipWith (fun a b => a + b) v acc)
    (List.replicate C 0)

/-- The divisor of the `mean_ctx` division: `txt_ctx_mask.sum(0)` for one
batch element, used as-is (no clamping). -/
def meanDivisor (txt_ctx_mask : List ℚ) : ℚ := txt_ctx_mask.sum

/-- `ConditionalMMDecoder.f_init` for one batch element. -/
def f_init_elem (cfg : DecCfg) (ff_dec_init : List ℚ → List ℚ) (C : ℕ)
    (txt_ctx : List (List ℚ)) (txt_ctx_mask : List ℚ) : Option (List ℚ) :=
  if cfg.dec_init = "zero" then
    some (List.replicate cfg.hidden_size 0)
  else if cfg.dec_init = "mean_ctx" then
    some (ff_dec_init
      ((ctxSum C txt_ctx).map (fun x => x / meanDivisor txt_ctx_mask)))
  else
    none

/-- Sum of only the valid (mask nonzero) position vectors. -/
def validCtxSum (C : ℕ) (txt_ctx : List (List ℚ)) (mask : List ℚ) :
    List ℚ :=
  ((txt_ctx.zip mask).filter (fun p => p.2 != 0)).foldr
    (fun p acc => List.zipWith (fun a b => a + b) p.1 acc)
    (List.replicate C 0)

/-- Count of valid (mask nonzero) positions. -/
def validCount (mask : List ℚ) : ℕ := (mask.filter (fun m => m != 0)).length

/-- Modelled from the spec (refinement comparison for the `mean_ctx`
initializer): "compute the sum over valid textual positions divided by the
count of valid positions per batch element", then the FF projection. -/
def f_init_mean_ctx_spec (ff_dec_init : List ℚ → List ℚ) (C : ℕ)
    (txt_ctx : List (List ℚ)) (mask : List ℚ) : List ℚ :=
  ff_dec_init
    ((validCtxSum C txt_ctx mask).map (fun x => x / (validCount mask : ℚ)))

/-!
Output normalization.  Line 113 of the source computes
`-F.log_softmax(self.out2prob(logit), dim=-1)`.  `F.log_softmax` is the
mathematical map `x_i - log (Σ_j exp x_j)` along the vocabulary dimension;
the idealized real-valued semantics is embedded for one batch element.
-/

/-- The negated log-softmax of a score vector over a vocabulary of size
`n`: the entrywise negation of `F.log_softmax(x, dim=-1)`. -/
noncomputable def negLogSoftmax (n : ℕ) (x : Fin n → ℝ) : Fin n → ℝ :=
  fun i => -(x i - Real.log (∑ j, Real.exp (x j)))

/-!
Concrete instantiations used to evaluate the orchestration functions on
closed inputs.
-/

/-- A concrete model over rationals: tokens are naturals, all tensor types
collapse to `ℚ`, and the black-box operators are simple arithmetic. -/
def Mc : DecModel ℕ ℚ ℚ ℚ ℚ Unit ℚ ℚ where
  emb := fun t => (t : ℚ)
  f_init := fun c => c
  dec0 := fun y h => y + h
  dec1 := fun z h => z + 2 * h
  txt_att := fun h c => ((), h + c)
  img_att := fun h c => ((), h + 3 * c)
  fusion := fun a b => a + b
  hid2out := fun h => h
  dropout_out := 0
  do_out := fun e => e
  out2prob := fun e => e
  neg_log_softmax := fun s => s
  gather := fun p tok => p + tok

/-- The concrete model with a constant gather operator: every executed loop
iteration contributes exactly 1 to the loss, so the returned loss counts
the iterations that contributed a term. -/
def Mc2 : DecModel ℕ ℚ ℚ ℚ ℚ Unit ℚ ℚ :=
  { Mc with gather := fun _ _ => 1 }

/-- A context dictionary carrying the keys `f_next` actually reads. -/
def ctxc : CtxDict ℚ := [("txt", 1), ("image", 2)]

/-- A context dictionary keyed with the constructor's visual key `"img"`
instead of the `"image"` key read by `f_next`. -/
def ctxImgOnly : CtxDict ℚ := [("txt", 1), ("img", 2)]

/-- A target sequence whose every loss target (positions 1 and beyond) is
the padding token 0. -/
def yAllPad : Nat → ℕ := fun t => if t = 0 then 5 else 0

/-- A configuration with the `mean_ctx` initializer policy. -/
def cfgMean : DecCfg where
  input_size := 2
  hidden_size := 3
  n_vocab := 7
  tied_emb := false
  dec_init := "mean_ctx"
  dropout_out := 0
  txt_att_ctx_size := 1
  img_att_ctx_size := 4
  ff_dec_init_activ := some "tanh"
  embRef := 0
  outRef := 1

/-- The configuration produced by constructing with the unrecognized policy
string `"bogus"`. -/
def cfgBogus : DecCfg where
  input_size := 2
  hidden_size := 3
  n_vocab := 7
  tied_emb := false
  dec_init := "bogus"
  dropout_out := 0
  txt_att_ctx_size := 4
  img_att_ctx_size := 5
  ff_dec_init_activ := none
  embRef := 0
  outRef := 1

/-- The configuration produced by constructing with `tied_emb = true`: the
output-projection weight reference aliases the embedding reference. -/
def cfgTied : DecCfg where
  input_size := 2
  hidden_size := 3
  n_vocab := 7
  tied_emb := true
  dec_init := "zero"
  dropout_out := 0
  txt_att_ctx_size := 4
  img_att_ctx_size := 5
  ff_dec_init_activ := none
  embRef := 0
  outRef := 0

/-!
Helper lemmas: characterization of `f_next` and of the decoding loop once
the two dictionary lookups succeed.
-/

section Lemmas

variable {Tok Emb Hid Ctx Zt Alpha Score Logp : Type}

theorem exceptBind_ok {ε α β : Type} (a : α) (f : α → Except ε β) :
    (do
      let x ← Except.ok a
      f x : Except ε β) = f a := rfl

theorem exceptBind_error {ε α β : Type} (e : ε) (f : α → Except ε β) :
    (do
      let x ← Except.error e
      f x : Except ε β) = Except.error e := rfl

theorem f_next_ok {M : DecModel Tok Emb Hid Ctx Zt Alpha Score Logp}
    {ctx_dict : CtxDict Ctx} {txt_pair img_pair : Ctx}
    (ht : ctx_dict.lookup "txt" = some txt_pair)
    (hi : ctx_dict.lookup "image" = some img_pair)
    (y : Emb) (h : Hid) :
    f_next M ctx_dict y h = Except.ok (f_next_pure M txt_pair img_pair y h) := by
  simp only [f_next, ht, hi]
  rfl

theorem decodeLoop_eq {M : DecModel Tok Emb Hid Ctx Zt Alpha Score Logp}
    {ctx_dict : CtxDict Ctx} {txt_pair img_pair : Ctx}
    (ht : ctx_dict.lookup "txt" = some txt_pair)
    (hi : ctx_dict.lookup "image" = some img_pair)
    (y_emb : Nat → Emb) (y : Nat → Tok) (h0 : Hid) :
    ∀ (n t : Nat) (loss : ℚ),
      decodeLoop M ctx_dict y_emb y n t
        (hiddenSeq M txt_pair img_pair y_emb h0 t) loss =
      Except.ok (loss + ∑ k in Finset.range n,
        stepTerm M txt_pair img_pair y_emb y h0 (t + k)) := by
  intro n
  induction n with
  | zero =>
    intro t loss
    simp [decodeLoop]
  | succ n ih =>
    intro t loss
    rw [decodeLoop]
    rw [f_next_ok ht hi]
    have hstep :
        (f_next_pure M txt_pair img_pair (y_emb t)
          (hiddenSeq M txt_pair img_pair y_emb h0 t)).2 =
        hiddenSeq M txt_pair img_pair y_emb h0 (t + 1) := rfl
    have hterm :
        M.gather (f_next_pure M txt_pair img_pair (y_emb t)
          (hiddenSeq M txt_pair img_pair y_emb h0 t)).1 (y (t + 1)) =
        stepTerm M txt_pair img_pair y_emb y h0 t := rfl
    rw [exceptBind_ok]
    rw [hstep, hterm, ih (t + 1)]
    have hsum :
        ∑ k in Finset.range (n + 1),
          stepTerm M txt_pair img_pair y_emb y h0 (t + k) =
        stepTerm M txt_pair img_pair y_emb y h0 t +
          ∑ k in Finset.range n,
            stepTerm M txt_pair img_pair y_emb y h0 (t + 1 + k) := by
      rw [Finset.sum_range_succ']
      rw [add_comm]
      congr 1
      apply Finset.sum_congr rfl
      intro k _
      congr 1
      omega
    rw [hsum, add_assoc]

theorem forward_ok {M : DecModel Tok Emb Hid Ctx Zt Alpha Score Logp}
    {ctx_dict : CtxDict Ctx} {txt_pair img_pair : Ctx}
    (ht : ctx_dict.lookup "txt" = some txt_pair)
    (hi : ctx_dict.lookup "image" = some img_pair)
    (y : Nat → Tok) (L : Nat) :
    forward M ctx_dict y L =
      Except.ok (∑ t in Finset.range (L - 1),
        stepTerm M txt_pair img_pair (fun s => M.emb (y s)) y
          (M.f_init txt_pair) t) := by
  have h0 :
      hiddenSeq M txt_pair img_pair (fun s => M.emb (y s))
        (M.f_init txt_pair) 0 = M.f_init txt_pair := rfl
  have := decodeLoop_eq (M := M) ht hi (fun s => M.emb (y s)) y
    (M.f_init txt_pair) (L - 1) 0 0
  rw [h0] at this
  simp only [forward, ht]
  rw [exceptBind_ok]
  rw [this]
  congr 1
  rw [zero_add]
  apply Finset.sum_congr rfl
  intro k _
  congr 1
  omega

end Lemmas

/-!
Helper lemmas for the `mean_ctx` initializer: adding a zero vector is the
identity, and under binary masks with zeroed padding positions the code's
sum over all positions agrees with the sum over valid positions only.
-/

theorem zipWith_add_replicate_zero :
    ∀ (C : ℕ) (acc : List ℚ), acc.length = C →
      List.zipWith (fun a b => a + b) (List.replicate C (0 : ℚ)) acc = acc := by
  intro C
  induction C with
  | zero =>
    intro acc hlen
    cases acc with
    | nil => rfl
    | cons a as => simp at hlen
  | succ n ih =>
    intro acc hlen
    cases acc with
    | nil => simp at hlen
    | cons a as =>
      simp only [List.replicate_succ, List.zipWith_cons_cons, zero_add]
      rw [ih as (by simpa using hlen)]

theorem ctxSum_length :
    ∀ (C : ℕ) (ctx : List (List ℚ)), (∀ v ∈ ctx, v.length = C) →
      (ctxSum C ctx).length = C := by
  intro C ctx
  induction ctx with
  | nil =>
    intro _
    simp [ctxSum]
  | cons v vs ih =>
    intro hshape
    have hv : v.length = C := hshape v (by simp)
    have hvs : (ctxSum C vs).length = C :=
      ih (fun w hw => hshape w (by simp [hw]))
    simp only [ctxSum, List.foldr_cons]
    rw [List.length_zipWith]
    simp only [ctxSum] at hvs
    rw [hv, hvs, Nat.min_self]

theorem ctxSum_eq_validCtxSum :
    ∀ (C : ℕ) (ctx : List (List ℚ)) (mask : List ℚ),
      ctx.length = mask.length → (∀ v ∈ ctx, v.length = C) →
      (∀ p ∈ ctx.zip mask, p.2 = 0 → p.1 = List.replicate C 0) →
      ctxSum C ctx = validCtxSum C ctx mask := by
  intro C ctx
  induction ctx with
  | nil =>
    intro mask _ _ _
    simp [ctxSum, validCtxSum]
  | cons v vs ih =>
    intro mask hlen hshape hzero
    cases mask with
    | nil => simp at hlen
    | cons m ms =>
      have hlen' : vs.length = ms.length := by simpa using hlen
      have hshape' : ∀ w ∈ vs, w.length = C :=
        fun w hw => hshape w (by simp [hw])
      have hzero' : ∀ p ∈ vs.zip ms, p.2 = 0 → p.1 = List.replicate C 0 :=
        fun p hp => hzero p (by simp [List.zip_cons_cons, hp])
      by_cases hm : m = 0
      · have hv : v = List.replicate C 0 :=
          hzero (v, m) (by simp [List.zip_cons_cons]) hm
        have hrest : ctxSum C vs = validCtxSum C vs ms := ih ms hlen' hshape' hzero'
        have hkeep : validCtxSum C (v :: vs) (m :: ms) = validCtxSum C vs ms := by
          subst hm
          simp [validCtxSum, List.zip_cons_cons, List.filter, List.zip]
        rw [hkeep, ← hrest]
        simp only [ctxSum, List.foldr_cons]
        rw [hv]
        have : (ctxSum C vs).length = C := ctxSum_length C vs hshape'
        simp only [ctxSum] at this
        exact zipWith_add_replicate_zero C _ this
      · have hrest : ctxSum C vs = validCtxSum C vs ms := ih ms hlen' hshape' hzero'
        have hbne : (m != 0) = true := bne_iff_ne.mpr hm
        have hkeep : validCtxSum C (v :: vs) (m :: ms) =
            List.zipWith (fun a b => a + b) v (validCtxSum C vs ms) := by
          simp [validCtxSum, List.zip_cons_cons, List.filter, List.zip, hbne]
        rw [hkeep, ← hrest]
        simp [ctxSum]

theorem meanDivisor_eq_validCount :
    ∀ (mask : List ℚ), (∀ m ∈ mask, m = 0 ∨ m = 1) →
      meanDivisor mask = (validCount mask : ℚ) := by
  intro mask
  induction mask with
  | nil => simp [meanDivisor, validCount]
  | cons m ms ih =>
    intro hbin
    have hm := hbin m (by simp)
    have hms : ∀ x ∈ ms, x = 0 ∨ x = 1 := fun x hx => hbin x (by simp [hx])
    have ihms := ih hms
    cases hm with
    | inl h0 =>
      subst h0
      have hv0 : validCount ((0 : ℚ) :: ms) = validCount ms := by
        simp [validCount, List.filter_cons]
      rw [hv0]
      simp only [meanDivisor, List.sum_cons, zero_add]
      exact ihms
    | inr h1 =>
      subst h1
      have hb1 : ((1 : ℚ) != 0) = true := bne_iff_ne.mpr one_ne_zero
      have hv1 : validCount ((1 : ℚ) :: ms) = validCount ms + 1 := by
        simp [validCount, List.filter_cons, hb1]
      rw [hv1]
      simp only [meanDivisor, List.sum_cons] at ihms ⊢
      rw [ihms]
      push_cast
      ring

/-!
Claim theorems.
-/

/-- C1: for every target sequence of length `L ≥ 1`, `forward` performs
exactly `L - 1` orchestration steps; the loss is the sum, over
`t ∈ range (L - 1)`, of the gathered entry at the next token `y (t + 1)` of
the distribution produced by `f_next` fed the embedding of the current
token `y t` — the model is never fed the token it is asked to predict. -/
theorem claim_C1 {Tok Emb Hid Ctx Zt Alpha Score Logp : Type}
    (M : DecModel Tok Emb Hid Ctx Zt Alpha Score Logp)
    (ctx_dict : CtxDict Ctx) (y : Nat → Tok) (L : Nat)
    (txt_pair img_pair : Ctx)
    (ht : ctx_dict.lookup "txt" = some txt_pair)
    (hi : ctx_dict.lookup "image" = some img_pair)
    (hL : 1 ≤ L) :
    forward M ctx_dict y L =
      Except.ok (∑ t in Finset.range (L - 1),
        M.gather
          (f_next_pure M txt_pair img_pair (M.emb (y t))
            (hiddenSeq M txt_pair img_pair (fun s => M.emb (y s))
              (M.f_init txt_pair) t)).1
          (y (t + 1))) := by
  rw [forward_ok ht hi]
  simp only [stepTerm]

/-- Witness for C1 at a concrete three-token sequence. -/
theorem claim_C1_witness :
    forward Mc ctxc (fun t => t) 3 =
      Except.ok (∑ t in Finset.range 2,
        Mc.gather
          (f_next_pure Mc 1 2 (Mc.emb t)
            (hiddenSeq Mc 1 2 (fun s => Mc.emb s) (Mc.f_init 1) t)).1
          (t + 1)) :=
  claim_C1 Mc ctxc (fun t => t) 3 1 2 (by decide) (by decide) (by decide)

/-- C2: each `f_next` invocation computes, in dependency order,
`h1 = dec0 y h`, both attention calls queried with `h1` (never the
pre-update `h`), the fusion of the two context vectors, `h2 = dec1 z h1`,
the bottleneck, optional dropout and vocabulary projection applied to `h2`,
and returns `h2` as the new hidden state. -/
theorem claim_C2 {Tok Emb Hid Ctx Zt Alpha Score Logp : Type}
    (M : DecModel Tok Emb Hid Ctx Zt Alpha Score Logp)
    (ctx_dict : CtxDict Ctx) (y : Emb) (h : Hid)
    (txt_pair img_pair : Ctx)
    (ht : ctx_dict.lookup "txt" = some txt_pair)
    (hi : ctx_dict.lookup "image" = some img_pair) :
    f_next M ctx_dict y h =
      Except.ok
        (M.neg_log_softmax (M.out2prob
          (if M.dropout_out > 0 then
            M.do_out (M.hid2out (M.dec1
              (M.fusion (M.txt_att (M.dec0 y h) txt_pair).2
                (M.img_att (M.dec0 y h) img_pair).2)
              (M.dec0 y h)))
          else
            M.hid2out (M.dec1
              (M.fusion (M.txt_att (M.dec0 y h) txt_pair).2
                (M.img_att (M.dec0 y h) img_pair).2)
              (M.dec0 y h)))),
        M.dec1
          (M.fusion (M.txt_att (M.dec0 y h) txt_pair).2
            (M.img_att (M.dec0 y h) img_pair).2)
          (M.dec0 y h)) := by
  rw [f_next_ok ht hi]
  rfl

/-- Witness for C2 at concrete inputs. -/
theorem claim_C2_witness :
    f_next Mc ctxc (4 : ℚ) (5 : ℚ) =
      Except.ok
        (Mc.neg_log_softmax (Mc.out2prob
          (if Mc.dropout_out > 0 then
            Mc.do_out (Mc.hid2out (Mc.dec1
              (Mc.fusion (Mc.txt_att (Mc.dec0 4 5) 1).2
                (Mc.img_att (Mc.dec0 4 5) 2).2)
              (Mc.dec0 4 5)))
          else
            Mc.hid2out (Mc.dec1
              (Mc.fusion (Mc.txt_att (Mc.dec0 4 5) 1).2
                (Mc.img_att (Mc.dec0 4 5) 2).2)
              (Mc.dec0 4 5)))),
        Mc.dec1
          (Mc.fusion (Mc.txt_att (Mc.dec0 4 5) 1).2
            (Mc.img_att (Mc.dec0 4 5) 2).2)
          (Mc.dec0 4 5)) :=
  claim_C2 Mc ctxc 4 5 1 2 (by decide) (by decide)

/-- C5 counterexample: in `Mc2` the gather operator contributes exactly 1
per executed iteration.  With target sequence `yAllPad = [5, 0, 0]`, every
loss target (`y 1` and `y 2`) is the padding token 0, so if positions with
target token 0 were excluded from the loss by the loop range, the loss
would be 0; the code returns 2 — both zero-target positions contributed. -/
theorem claim_C5_counterexample :
    forward Mc2 ctxc yAllPad 3 = Except.ok 2 ∧ (2 : ℚ) ≠ 0 := by
  constructor
  · have h1 : forward Mc2 ctxc yAllPad 3 =
        Except.ok (∑ t in Finset.range 2,
          stepTerm Mc2 1 2 (fun s => Mc2.emb (yAllPad s)) yAllPad
            (Mc2.f_init 1) t) :=
      forward_ok (by decide) (by decide) yAllPad 3
    have hs : ∀ t : ℕ,
        stepTerm Mc2 1 2 (fun s => Mc2.emb (yAllPad s)) yAllPad
          (Mc2.f_init 1) t = 1 :=
      fun t => rfl
    rw [h1]
    congr 1
    simp [hs]
  · norm_num

/-- C5 amended: embedding row 0 is constructed as a fixed zero vector
(`padding_idx=0`), but the loop range excludes nothing based on target
token value: the loss sums a gathered term for every `t < L - 1`, with no
test on `y (t + 1)`; the only positional exclusions are that `y 0` is never
a target and `y (L - 1)` is never an input. -/
theorem claim_C5_amended {Tok Emb Hid Ctx Zt Alpha Score Logp : Type}
    (M : DecModel Tok Emb Hid Ctx Zt Alpha Score Logp)
    (ctx_dict : CtxDict Ctx) (y : Nat → Tok) (L : Nat)
    (txt_pair img_pair : Ctx)
    (ht : ctx_dict.lookup "txt" = some txt_pair)
    (hi : ctx_dict.lookup "image" = some img_pair) :
    (∀ (W : ℕ → ℕ → ℚ) (i : ℕ), mkEmbWeight W 0 i = 0) ∧
    forward M ctx_dict y L =
      Except.ok (∑ t in Finset.range (L - 1),
        M.gather
          (f_next_pure M txt_pair img_pair (M.emb (y t))
            (hiddenSeq M txt_pair img_pair (fun s => M.emb (y s))
              (M.f_init txt_pair) t)).1
          (y (t + 1))) := by
  constructor
  · intro W i
    rfl
  · rw [forward_ok ht hi]
    simp only [stepTerm]

/-- Witness for the amended C5 on the all-padding-target sequence. -/
theorem claim_C5_witness :
    mkEmbWeight (fun _ _ => 9) 0 3 = 0 ∧
    forward Mc2 ctxc yAllPad 3 =
      Except.ok (∑ t in Finset.range 2,
        Mc2.gather
          (f_next_pure Mc2 1 2 (Mc2.emb (yAllPad t))
            (hiddenSeq Mc2 1 2 (fun s => Mc2.emb (yAllPad s))
              (Mc2.f_init 1) t)).1
          (yAllPad (t + 1))) :=
  ⟨(claim_C5_amended Mc2 ctxc yAllPad 3 1 2 (by decide) (by decide)).1
      (fun _ _ => 9) 3,
   (claim_C5_amended Mc2 ctxc yAllPad 3 1 2 (by decide) (by decide)).2⟩

/-- C8 counterexample: a length-0 target sequence is not rejected —
`forward` runs to completion and returns the loss 0 (the loop body never
executes), rather than raising an error before the loop. -/
theorem claim_C8_counterexample :
    forward Mc ctxc (fun t => t) 0 = Except.ok 0 := rfl

/-- C8 amended: on a length-0 target sequence `forward` performs no
validation and no loop iterations, returning loss 0. -/
theorem claim_C8_amended {Tok Emb Hid Ctx Zt Alpha Score Logp : Type}
    (M : DecModel Tok Emb Hid Ctx Zt Alpha Score Logp)
    (ctx_dict : CtxDict Ctx) (y : Nat → Tok) (txt_pair : Ctx)
    (ht : ctx_dict.lookup "txt" = some txt_pair) :
    forward M ctx_dict y 0 = Except.ok 0 := by
  simp only [forward, ht]
  rw [exceptBind_ok]
  rfl

/-- Witness for the amended C8. -/
theorem claim_C8_witness :
    forward Mc2 ctxc (fun t => t + 1) 0 = Except.ok 0 :=
  claim_C8_amended Mc2 ctxc (fun t => t + 1) 1 (by decide)

/-- C10: the constructor reads the visual context dimensionality under key
`"img"` in `ctx_size_dict` (construction succeeds with keys `txt`/`img` and
records that size for the visual attention), while `f_next` reads the
visual stream under key `"image"` in `ctx_dict`; a context dictionary that
uses the construction key `"img"` and therefore lacks `"image"` makes every
`f_next` call fail with a missing-key error on `"image"`. -/
theorem claim_C10 {Tok Emb Hid Ctx Zt Alpha Score Logp : Type}
    (input_size hidden_size n_vocab : ℕ) (tied : Bool) (di : String) (dp : ℚ)
    (sizes : List (String × ℕ)) (st si : ℕ)
    (hts : sizes.lookup "txt" = some st)
    (his : sizes.lookup "img" = some si)
    (M : DecModel Tok Emb Hid Ctx Zt Alpha Score Logp)
    (ctx_dict : CtxDict Ctx) (y : Emb) (h : Hid) (txt_pair : Ctx)
    (ht : ctx_dict.lookup "txt" = some txt_pair)
    (hnoimage : ctx_dict.lookup "image" = none) :
    (∃ cfg : DecCfg,
      mkDecoder input_size hidden_size sizes n_vocab tied di dp =
        Except.ok cfg ∧
      cfg.img_att_ctx_size = si) ∧
    f_next M ctx_dict y h = Except.error (DecErr.keyError "image") := by
  constructor
  · refine ⟨builtCfg input_size hidden_size n_vocab tied di dp st si, ?_, rfl⟩
    simp only [mkDecoder, hts, his, exceptBind_ok, builtCfg]
  · simp only [f_next, ht, hnoimage]
    rfl

/-- C3 counterexample: the code's `mean_ctx` numerator is
`txt_ctx.sum(0)` — the sum over all positions, padding included — not the
sum over valid positions only.  With one valid position carrying `[1]` and
one padding position carrying `[5]`, the code (with the identity FF)
returns `[6]` while the spec's valid-only mean is `[1]`. -/
theorem claim_C3_counterexample :
    f_init_elem cfgMean id 1 [[1], [5]] [1, 0] = some [6] ∧
    f_init_mean_ctx_spec id 1 [[1], [5]] [1, 0] = [1] ∧
    f_init_elem cfgMean id 1 [[1], [5]] [1, 0] ≠
      some (f_init_mean_ctx_spec id 1 [[1], [5]] [1, 0]) := by
  have h1 : f_init_elem cfgMean id 1 [[1], [5]] [1, 0] = some [6] := by
    simp [f_init_elem, cfgMean, ctxSum, meanDivisor]
    norm_num
  have h2 : f_init_mean_ctx_spec id 1 [[1], [5]] [1, 0] = [1] := by
    simp [f_init_mean_ctx_spec, validCtxSum, validCount]
  refine ⟨h1, h2, ?_⟩
  rw [h1, h2]
  simp

/-- C3 amended: under `mean_ctx`, `f_init` returns the FF projection of the
sum over all positions divided by the count of valid positions; this equals
the spec's valid-positions-only mean exactly when every padding position
carries the zero vector (with consistent shapes and a 0/1 mask).  The
denominator is indeed the valid-position count, so the result is not a
naive mean over all positions either. -/
theorem claim_C3_amended (cfg : DecCfg) (ff : List ℚ → List ℚ) (C : ℕ)
    (txt_ctx : List (List ℚ)) (mask : List ℚ)
    (hd : cfg.dec_init = "mean_ctx")
    (hlen : txt_ctx.length = mask.length)
    (hshape : ∀ v ∈ txt_ctx, v.length = C)
    (hbin : ∀ m ∈ mask, m = 0 ∨ m = 1)
    (hzero : ∀ p ∈ txt_ctx.zip mask, p.2 = 0 → p.1 = List.replicate C 0) :
    f_init_elem cfg ff C txt_ctx mask =
      some (f_init_mean_ctx_spec ff C txt_ctx mask) := by
  have hnum := ctxSum_eq_validCtxSum C txt_ctx mask hlen hshape hzero
  have hden := meanDivisor_eq_validCount mask hbin
  unfold f_init_elem f_init_mean_ctx_spec
  rw [hd]
  rw [if_neg (by decide : ¬ ("mean_ctx" = "zero"))]
  rw [if_pos rfl]
  rw [hnum, hden]

/-- Witness for the amended C3: padding position zeroed, binary mask. -/
theorem claim_C3_witness :
    f_init_elem cfgMean id 1 [[2], [0]] [1, 0] =
      some (f_init_mean_ctx_spec id 1 [[2], [0]] [1, 0]) :=
  claim_C3_amended cfgMean id 1 [[2], [0]] [1, 0] rfl (by decide) (by decide)
    (by decide) (by decide)

/-- C4: every entry of the negated log-softmax is non-negative, and the
exponentials of the negated entries sum to 1 over the vocabulary. -/
theorem claim_C4 (n : ℕ) (x : Fin n → ℝ) (hn : 0 < n) :
    (∀ i, 0 ≤ negLogSoftmax n x i) ∧
    ∑ i, Real.exp (-(negLogSoftmax n x i)) = 1 := by
  have hne : Nonempty (Fin n) := ⟨⟨0, hn⟩⟩
  have hS : 0 < ∑ j, Real.exp (x j) :=
    Finset.sum_pos (fun j _ => Real.exp_pos (x j)) Finset.univ_nonempty
  constructor
  · intro i
    have hle : Real.exp (x i) ≤ ∑ j, Real.exp (x j) :=
      Finset.single_le_sum (fun j _ => (Real.exp_pos (x j)).le)
        (Finset.mem_univ i)
    have hlog : x i ≤ Real.log (∑ j, Real.exp (x j)) := by
      rw [Real.le_log_iff_exp_le hS]
      exact hle
    simp only [negLogSoftmax, neg_nonneg, sub_nonpos]
    exact hlog
  · have hexp : ∀ i, Real.exp (-(negLogSoftmax n x i)) =
        Real.exp (x i) / (∑ j, Real.exp (x j)) := by
      intro i
      simp only [negLogSoftmax, neg_neg, Real.exp_sub, Real.exp_log hS]
    rw [Finset.sum_congr rfl (fun i _ => hexp i)]
    rw [← Finset.sum_div]
    exact div_self (ne_of_gt hS)

/-- Witness for C4 on a concrete one-entry score vector. -/
theorem claim_C4_witness :
    0 ≤ negLogSoftmax 1 (fun _ => (0 : ℝ)) 0 ∧
    ∑ i, Real.exp (-(negLogSoftmax 1 (fun _ => (0 : ℝ)) i)) = 1 :=
  ⟨(claim_C4 1 (fun _ => 0) (by decide)).1 0,
   (claim_C4 1 (fun _ => 0) (by decide)).2⟩

/-- C6: constructing with `tied_emb = true` aliases the vocabulary
projection's weight reference to the embedding table's reference, so after
any sequence of parameter mutations the embedding row of every token id and
the corresponding projection row are identical. -/
theorem claim_C6 (input_size hidden_size : ℕ) (sizes : List (String × ℕ))
    (n_vocab : ℕ) (di : String) (dp : ℚ) (cfg : DecCfg)
    (hmk : mkDecoder input_size hidden_size sizes n_vocab true di dp =
      Except.ok cfg)
    (h0 : Heap) (ups : List (ℕ × (ℕ → ℕ → ℚ))) (tok i : ℕ) :
    applyUpdates h0 ups cfg.embRef tok i =
      applyUpdates h0 ups cfg.outRef tok i := by
  have href : cfg.outRef = cfg.embRef := by
    cases hts : sizes.lookup "txt" with
    | none =>
      simp only [mkDecoder, hts, exceptBind_error] at hmk
      exact Except.noConfusion hmk
    | some st =>
      cases his : sizes.lookup "img" with
      | none =>
        simp only [mkDecoder, hts, his, exceptBind_ok, exceptBind_error] at hmk
        exact Except.noConfusion hmk
      | some si =>
        simp only [mkDecoder, hts, his, exceptBind_ok, Except.ok.injEq] at hmk
        rw [← hmk]
        simp
  rw [href]

/-- Witness for C6: a concrete tied construction and one heap mutation. -/
theorem claim_C6_witness :
    applyUpdates (fun _ _ _ => 0) [(0, fun r c => (r + c : ℚ))]
      cfgTied.embRef 5 1 =
    applyUpdates (fun _ _ _ => 0) [(0, fun r c => (r + c : ℚ))]
      cfgTied.outRef 5 1 :=
  claim_C6 2 3 [("txt", 4), ("img", 5)] 7 "zero" 0 cfgTied rfl
    (fun _ _ _ => 0) [(0, fun r c => (r + c : ℚ))] 5 1

/-- C7 counterexample: the `mean_ctx` divisor is the raw mask sum — for an
all-padding mask it is 0, not clamped to at least 1, and the division is
performed with that zero divisor (here `7 / 0`; IEEE floats would produce a
non-finite value, while this rational model follows Lean's `x / 0 = 0`
convention; a clamped divisor would instead produce `[7]`). -/
theorem claim_C7_counterexample :
    meanDivisor [0, 0] = 0 ∧ ¬ (1 ≤ meanDivisor [0, 0]) ∧
    f_init_elem cfgMean id 1 [[3], [4]] [0, 0] = some [(7 : ℚ) / 0] := by
  refine ⟨?_, ?_, ?_⟩
  · simp [meanDivisor]
  · simp [meanDivisor]
  · simp [f_init_elem, cfgMean, ctxSum, meanDivisor]

/-- C7 amended: nothing guards the division in `f_init` under `mean_ctx`:
for a batch element whose mask is all zeros the divisor is exactly 0 and
the division is still performed with it. -/
theorem claim_C7_amended (cfg : DecCfg) (ff : List ℚ → List ℚ) (C : ℕ)
    (txt_ctx : List (List ℚ)) (mask : List ℚ)
    (hd : cfg.dec_init = "mean_ctx")
    (hall : ∀ m ∈ mask, m = 0) :
    meanDivisor mask = 0 ∧
    f_init_elem cfg ff C txt_ctx mask =
      some (ff ((ctxSum C txt_ctx).map (fun x => x / 0))) := by
  have h0 : meanDivisor mask = 0 := List.sum_eq_zero hall
  refine ⟨h0, ?_⟩
  unfold f_init_elem
  rw [hd]
  rw [if_neg (by decide : ¬ ("mean_ctx" = "zero"))]
  rw [if_pos rfl]
  rw [h0]

/-- Witness for the amended C7 on an all-padding mask. -/
theorem claim_C7_witness :
    meanDivisor [0, 0, 0] = 0 ∧
    f_init_elem cfgMean id 2 [[1, 2]] [0, 0, 0] =
      some (id ((ctxSum 2 [[1, 2]]).map (fun x => x / 0))) :=
  claim_C7_amended cfgMean id 2 [[1, 2]] [0, 0, 0] rfl (by decide)

/-- C9 counterexample: constructing with the unrecognized policy string
`"bogus"` succeeds (no fatal error at construction time); the failure is
deferred to the first `f_init` call, which falls through both branches and
returns nothing. -/
theorem claim_C9_counterexample :
    mkDecoder 2 3 [("txt", 4), ("img", 5)] 7 false "bogus" 0 =
      Except.ok cfgBogus ∧
    f_init_elem cfgBogus id 1 [[1]] [1] = none :=
  ⟨rfl, rfl⟩

/-- C9 amended: an unrecognized `dec_init` value is accepted silently at
construction time (provided the `txt`/`img` size keys are present), and
`f_init` then returns `None` at first use. -/
theorem claim_C9_amended (input_size hidden_size n_vocab : ℕ)
    (sizes : List (String × ℕ)) (tied : Bool) (s : String) (dp : ℚ)
    (st si : ℕ)
    (hts : sizes.lookup "txt" = some st)
    (his : sizes.lookup "img" = some si)
    (hz : s ≠ "zero") (hm : s ≠ "mean_ctx")
    (ff : List ℚ → List ℚ) (C : ℕ)
    (txt_ctx : List (List ℚ)) (mask : List ℚ) :
    ∃ cfg : DecCfg,
      mkDecoder input_size hidden_size sizes n_vocab tied s dp =
        Except.ok cfg ∧
      f_init_elem cfg ff C txt_ctx mask = none := by
  refine ⟨builtCfg input_size hidden_size n_vocab tied s dp st si, ?_, ?_⟩
  · simp only [mkDecoder, hts, his, exceptBind_ok, builtCfg]
  · dsimp only [f_init_elem, builtCfg]
    rw [if_neg hz, if_neg hm]

/-- Witness for the amended C9 with a typo'd policy string. -/
theorem claim_C9_witness :
    ∃ cfg : DecCfg,
      mkDecoder 2 3 [("txt", 4), ("img", 5)] 7 true "meanctx_typo" 1 =
        Except.ok cfg ∧
      f_init_elem cfg id 1 [[1]] [1] = none :=
  claim_C9_amended 2 3 7 [("txt", 4), ("img", 5)] true "meanctx_typo" 1 4 5
    (by decide) (by decide) (by decide) (by decide) id 1 [[1]] [1]

/-- Witness for C10: a dictionary keyed `txt`/`img` (no `image`). -/
theorem claim_C10_witness :
    (∃ cfg : DecCfg,
      mkDecoder 2 3 [("txt", 4), ("img", 7)] 9 false "zero" 0 =
        Except.ok cfg ∧
      cfg.img_att_ctx_size = 7) ∧
    f_next Mc ctxImgOnly (4 : ℚ) (5 : ℚ) =
      Except.error (DecErr.keyError "image") :=
  claim_C10 2 3 9 false "zero" 0 [("txt", 4), ("img", 7)] 4 7
    (by decide) (by decide) Mc ctxImgOnly 4 5 1 (by decide) (by decide)

end CondMM
